import Mathlib

/-!
Verification development for the DOCX → LaTeX converter
(`src/Arxiv/docx_to_latex.py`).

The Python source is shallowly embedded below.  Pure functions become Lean
functions; the mutable list stack (`self.list_stack`) becomes explicit state
passing.  XML element trees are modelled by the `Elem` structure; qualified
tag names keep the exact `{namespace}local` spelling used by
`xml.etree.ElementTree`.  Strings that contain literal braces are built from
the helpers `lb`/`rb`.
-/

set_option maxHeartbeats 1000000

namespace DocxToLatex

/-- Literal left brace character as a string. -/
def lb : String := "\x7b"

/-- Literal right brace character as a string. -/
def rb : String := "\x7d"

/-- The ASCII whitespace characters matched by the Python regex class `\s`
and stripped by `str.strip()`.  (Python is additionally Unicode-aware; the
document model here only exercises the ASCII range.) -/
def isPySpace (c : Char) : Bool :=
  c == ' ' || c == '\t' || c == '\n' || c == '\r' || c == '\x0b' || c == '\x0c'

mutual

/-- Model of `re.sub(r"\s+", " ", text)`: collapse every maximal run of whitespace
to a single space (head position: not currently inside a run). -/
def collapseWs : List Char → List Char
  | [] => []
  | c :: rest => if isPySpace c then ' ' :: skipWs rest else c :: collapseWs rest

/-- Continuation of `collapseWs` inside a whitespace run whose single
replacement space has already been emitted. -/
def skipWs : List Char → List Char
  | [] => []
  | c :: rest => if isPySpace c then skipWs rest else c :: collapseWs rest

end

/-- Drop leading and trailing Python whitespace from a character list. -/
def stripChars (cs : List Char) : List Char :=
  ((cs.dropWhile isPySpace).reverse.dropWhile isPySpace).reverse

/-- Python `str.strip()`. -/
def stripOnly (s : String) : String := String.mk (stripChars s.data)

/-- Model of `normalize_whitespace` (source lines 63-67): collapse runs of whitespace
to one space, then strip. -/
def normalize_whitespace (s : String) : String :=
  String.mk (stripChars (collapseWs s.data))

/-- Accumulate the value of a list of decimal digits. -/
def digitsToNat (ds : List Char) : Nat :=
  ds.foldl (fun acc c => acc * 10 + (c.toNat - '0'.toNat)) 0

/-- Model of Python `int(s)` for base-10 string input: surrounding
whitespace is stripped, an optional sign is allowed, and the remainder must
be a nonempty digit string; otherwise `ValueError` (here: `none`).
(Python additionally accepts `_` digit separators and Unicode digits;
neither occurs in the attribute values this converter reads.) -/
def parseInt (s : String) : Option Int :=
  let t := stripChars s.data
  let signed : Bool × List Char :=
    match t with
    | '-' :: rest => (true, rest)
    | '+' :: rest => (false, rest)
    | rest => (false, rest)
  if signed.2 ≠ [] ∧ signed.2.all (fun c => c.isDigit) then
    some (if signed.1 then -(digitsToNat signed.2 : Int) else (digitsToNat signed.2 : Int))
  else none

/-- The `replacements` dict of `escape_latex` (source lines 48-59), in its
source order. -/
def replacements : List (Char × String) :=
  [('\\', "\\textbackslash" ++ lb ++ rb),
   ('&', "\\&"),
   ('%', "\\%"),
   ('$', "\\$"),
   ('#', "\\#"),
   ('_', "\\_"),
   ('{', "\\" ++ lb),
   ('}', "\\" ++ rb),
   ('~', "\\textasciitilde" ++ lb ++ rb),
   ('^', "\\textasciicircum" ++ lb ++ rb)]

/-- Model of `replacements.get(ch, ch)`. -/
def escapeChar (c : Char) : String :=
  (replacements.lookup c).getD (String.singleton c)

/-- Model of `escape_latex` (source lines 46-60). -/
def escape_latex (text : String) : String :=
  String.join (text.data.map escapeChar)

/-- Two-digit rendering of a value below 100. -/
def pad2 (k : Nat) : String := if k < 10 then "0" ++ toString k else toString k

/-- Rendering of `n / 914400` with two decimal places, as the source's
`f"{int(cx) / EMU_PER_INCH:.2f}"` produces: computed here as the exact
rational rounded half-to-even.  (The source routes through a binary
floating-point quotient; for the extents exercised in this development the
two renderings agree.) -/
def formatIn2 (n : Int) : String :=
  let a := n.natAbs * 100
  let q := a / 914400
  let r := a % 914400
  let q2 := if 914400 < 2 * r ∨ (2 * r = 914400 ∧ q % 2 = 1) then q + 1 else q
  (if n < 0 then "-" else "") ++ toString (q2 / 100) ++ "." ++ pad2 (q2 % 100)

mutual

/-- An XML element as produced by `xml.etree.ElementTree`: qualified tag,
attribute list, ordered children, optional direct text.  The children are
held in the companion list type `ElemL` so that recursion over the tree is
structural. -/
inductive Elem where
  | mk (tag : String) (attrs : List (String × String)) (children : ElemL) (text : Option String)

/-- A list of elements (the children of an element). -/
inductive ElemL where
  | nil
  | cons (head : Elem) (tail : ElemL)

end

/-- The element's qualified tag. -/
def Elem.tag : Elem → String
  | .mk t _ _ _ => t

/-- The element's attribute list. -/
def Elem.attrs : Elem → List (String × String)
  | .mk _ a _ _ => a

/-- The element's children. -/
def Elem.children : Elem → ElemL
  | .mk _ _ cs _ => cs

/-- The element's direct text. -/
def Elem.text : Elem → Option String
  | .mk _ _ _ x => x

/-- Convert a children list to an ordinary list. -/
def ElemL.toList : ElemL → List Elem
  | .nil => []
  | .cons e rest => e :: ElemL.toList rest

/-- Build a children list from an ordinary list. -/
def ElemL.ofList : List Elem → ElemL
  | [] => .nil
  | e :: rest => .cons e (ElemL.ofList rest)

/-- Element constructor taking the children as an ordinary list. -/
def mkE (tag : String) (attrs : List (String × String)) (children : List Elem)
    (text : Option String) : Elem :=
  Elem.mk tag attrs (ElemL.ofList children) text

mutual

/-- The element followed by all its strict descendants, in document
(preorder) order. -/
def descE : Elem → List Elem
  | .mk t a cs x => Elem.mk t a cs x :: descL cs

/-- All the given elements and their strict descendants, in document
(preorder) order: the search domain of an ElementTree `.//` path below a
node with these children. -/
def descL : ElemL → List Elem
  | .nil => []
  | .cons e rest => descE e ++ descL rest

end

/-- Model of `element.find(tag)`: first direct child with the given tag. -/
def Elem.find (e : Elem) (t : String) : Option Elem :=
  e.children.toList.find? (fun c => c.tag == t)

/-- Model of `element.findall(tag)`: all direct children with the given tag. -/
def Elem.findall (e : Elem) (t : String) : List Elem :=
  e.children.toList.filter (fun c => c.tag == t)

/-- Model of `element.find(".//" + tag)`: first descendant with the given tag. -/
def Elem.findDesc (e : Elem) (t : String) : Option Elem :=
  (descL e.children).find? (fun c => c.tag == t)

/-- Model of `element.findall(".//" + tag)`: all descendants with the given tag. -/
def Elem.findallDesc (e : Elem) (t : String) : List Elem :=
  (descL e.children).filter (fun c => c.tag == t)

/-- Model of `element.attrib.get(key)`. -/
def Elem.attr (e : Elem) (k : String) : Option String :=
  e.attrs.lookup k

/-- WordprocessingML main namespace (source line 24). -/
def W_NS : String := "http://schemas.openxmlformats.org/wordprocessingml/2006/main"

/-- Office math namespace (source line 25). -/
def M_NS : String := "http://schemas.openxmlformats.org/officeDocument/2006/math"

/-- Relationships namespace (source line 26). -/
def R_NS : String := "http://schemas.openxmlformats.org/officeDocument/2006/relationships"

/-- DrawingML main namespace (source line 27). -/
def A_NS : String := "http://schemas.openxmlformats.org/drawingml/2006/main"

/-- WordprocessingDrawing namespace (source line 28). -/
def WP_NS : String := "http://schemas.openxmlformats.org/drawingml/2006/wordprocessingDrawing"

/-- ElementTree qualified name: braces around the namespace, then the local
name (`_q` in the source, line 579). -/
def qn (ns loc : String) : String := lb ++ ns ++ rb ++ loc

/-- Qualified name in the `w:` namespace. -/
def qW (loc : String) : String := qn W_NS loc

/-- Qualified name in the `m:` namespace. -/
def qM (loc : String) : String := qn M_NS loc

/-- Qualified name in the `r:` namespace. -/
def qR (loc : String) : String := qn R_NS loc

/-- Qualified name in the `a:` namespace. -/
def qA (loc : String) : String := qn A_NS loc

/-- Qualified name in the `wp:` namespace. -/
def qWP (loc : String) : String := qn WP_NS loc

/-! ## List State Machine (source lines 76-81, 501-562) -/

/-- The `ListState` dataclass (source lines 76-81).  `level` is an `Int`
because Python's `int(...)` on an `ilvl` value can produce any integer. -/
structure ListState where
  level : Int
  env : String
  num_id : String

/-- Model of `f"\\end{{{env}}}"`. -/
def endLine (env : String) : String := "\\end" ++ lb ++ env ++ rb

/-- Model of `f"\\begin{{{env}}}"`. -/
def beginLine (env : String) : String := "\\begin" ++ lb ++ env ++ rb

/-- Model of `_close_all_lists` (source lines 557-562): pop every entry, top first,
emitting one close per entry; the resulting stack is empty.  The stack is
represented head-first (head = Python `stack[-1]`). -/
def _close_all_lists (st : List ListState) : List String × List ListState :=
  (st.map (fun s => endLine s.env), [])

/-- The first `while` loop of `_sync_list_stack` (source lines 529-531):
close lists strictly deeper than the target level. -/
def popDeeper (t : ListState) : List ListState → List String × List ListState
  | [] => ([], [])
  | s :: rest =>
    if t.level < s.level then
      let r := popDeeper t rest
      (endLine s.env :: r.1, r.2)
    else ([], s :: rest)

/-- Source lines 533-537: if the top entry sits at the target level but its
environment or numbering identity differs, close that one entry. -/
def syncSameLevel (t : ListState) (st : List ListState) : List String × List ListState :=
  match st with
  | [] => ([], [])
  | cur :: rest =>
    if cur.level = t.level ∧ (cur.env ≠ t.env ∨ cur.num_id ≠ t.num_id) then
      ([endLine cur.env], rest)
    else ([], cur :: rest)

/-- The guard of the second `while` loop (source line 539):
`not self.list_stack or self.list_stack[-1].level < target.level`. -/
def pushCond (t : ListState) (st : List ListState) : Bool :=
  match st with
  | [] => true
  | s :: _ => decide (s.level < t.level)

/-- The second `while` loop of `_sync_list_stack` (source lines 539-542):
push entries whose level is the current stack length until the top reaches
the target level.  The loop is embedded with a fuel argument; `pushLoop`
supplies fuel that provably exceeds the number of iterations the guard
allows (`pushLoopGo_exit`). -/
def pushLoopGo (t : ListState) : Nat → List ListState → List String × List ListState
  | 0, st => ([], st)
  | fuel + 1, st =>
    if pushCond t st then
      let r := pushLoopGo t fuel (⟨(st.length : Int), t.env, t.num_id⟩ :: st)
      (beginLine t.env :: r.1, r.2)
    else ([], st)

/-- The second `while` loop with adequate fuel. -/
def pushLoop (t : ListState) (st : List ListState) : List String × List ListState :=
  pushLoopGo t (t.level.toNat + 2) st

/-- Source lines 543-554: the trailing `if`/`elif` chain.  Its first branch
repeats the guard of the `while` loop that just terminated, so the chain is
dead code in the source; it is kept verbatim here.  (The final `elif not
stack` arm is likewise preserved; note that reaching the middle arm with an
empty stack would raise `IndexError` in Python, but the first branch already
captures the empty stack.) -/
def syncTail (t : ListState) (st : List ListState) : List String × List ListState :=
  if pushCond t st then
    ([beginLine t.env], ⟨t.level, t.env, t.num_id⟩ :: st)
  else
    match st with
    | cur :: rest =>
      if cur.level = t.level ∧ (cur.env ≠ t.env ∨ cur.num_id ≠ t.num_id) then
        ([endLine cur.env, beginLine t.env], t :: rest)
      else ([], cur :: rest)
    | [] => ([beginLine t.env], [t])

/-- Model of `_sync_list_stack` (source lines 523-555), as a pure state transformer:
given the current stack and the paragraph's list target, return the emitted
open/close directive lines and the new stack. -/
def _sync_list_stack (st : List ListState) (target : Option ListState) :
    List String × List ListState :=
  match target with
  | none => _close_all_lists st
  | some t =>
    let r1 := popDeeper t st
    let r2 := syncSameLevel t r1.2
    let r3 := pushLoop t r2.2
    let r4 := syncTail t r3.2
    (r1.1 ++ r2.1 ++ r3.1 ++ r4.1, r4.2)

/-! ## Converter state and tree walkers -/

/-- The read-only converter state the walkers consult: the relationship map
(id ↦ (type, target)), the numbering-format map (numId ↦ (ilvl ↦ format)),
the package member names, and the output stem (`tex_path.stem`). -/
structure Conv where
  relationships : List (String × String × String)
  num_formats : List (String × List (Int × String))
  zipMembers : List String
  texStem : String

/-- Model of `_convert_math` (source lines 382-391): join the text of all `m:t`
descendants with single spaces inside inline math delimiters. -/
def _convert_math (e : Elem) : String :=
  let parts := ((descL e.children).filter (fun n => n.tag == qM "t")).filterMap
    (fun n => match n.text with
      | some s => if s ≠ "" then some s else none
      | none => none)
  if parts = [] then "" else "$" ++ String.intercalate " " parts ++ "$"

/-- Model of `_format_run_text` (source lines 357-380): escape the literal text, then
wrap according to the run's `rPr` style properties.  The `vertAlign`
wrapper is applied before the `wrappers` loop runs, so it sits innermost;
the loop then applies bold, emphasis, underline in that order. -/
def _format_run_text (text_node run : Elem) : String :=
  let raw_text := text_node.text.getD ""
  let escaped := escape_latex raw_text
  match run.find (qW "rPr") with
  | none => escaped
  | some rpr =>
    let wrappers : List String :=
      (if (rpr.find (qW "b")).isSome then ["textbf"] else []) ++
      (if (rpr.find (qW "i")).isSome then ["emph"] else []) ++
      (match rpr.find (qW "u") with
       | some u => if ((u.attr (qW "val")).getD "").toLower ≠ "none" then ["underline"] else []
       | none => [])
    let escaped1 :=
      match rpr.find (qW "vertAlign") with
      | some va =>
        match va.attr (qW "val") with
        | some "superscript" => "\\textsuperscript" ++ lb ++ escaped ++ rb
        | some "subscript" => "\\textsubscript" ++ lb ++ escaped ++ rb
        | _ => escaped
      | none => escaped
    wrappers.foldl (fun acc w => "\\" ++ w ++ lb ++ acc ++ rb) escaped1

/-- Resolution of the drawing's container (source lines 394-397): the first
`wp:inline` descendant, else the first `wp:anchor` descendant. -/
def drawingContainer (d : Elem) : Option Elem :=
  match d.findDesc (qWP "inline") with
  | some i => some i
  | none => d.findDesc (qWP "anchor")

/-- Model of `rel_type.endswith("/image")` (source line 409), computed on the
character list. -/
def endsWithS (s suff : String) : Bool := List.isSuffixOf suff.data s.data

/-- Model of `target.replace("\\", "/")` (source line 411): the pattern is the single
backslash character, so the replacement is character-wise. -/
def replaceBackslash (s : String) : String :=
  String.mk (s.data.map (fun c => if c = '\\' then '/' else c))

/-- The guard chain of `_convert_drawing` (source lines 399-416): locate the
`a:blip`, read its embed id, resolve it through the relationship map, check
the relationship kind is an image, and check the package holds the member;
any failure yields `none`.  Returns the relationship target. -/
def drawingTarget (cv : Conv) (d : Elem) : Option String :=
  match drawingContainer d with
  | none => none
  | some container =>
    match container.findDesc (qA "blip") with
    | none => none
    | some blip =>
      match blip.attr (qR "embed") with
      | none => none
      | some eid =>
        if eid = "" then none
        else
          match cv.relationships.lookup eid with
          | none => none
          | some rt =>
            if endsWithS rt.1 "/image" then
              let sanitized := replaceBackslash rt.2
              if ("word/" ++ sanitized) ∈ cv.zipMembers then some rt.2 else none
            else none

/-- Model of `Path(target).name` on a POSIX system: the part after the last slash. -/
def baseNameOf (t : String) : String := ((t.splitOn "/").getLast?).getD t

/-- The width computation of `_convert_drawing` (source lines 420-429): a
default of 70% of the line width, replaced by the extent's `cx` value
converted to inches when present, nonempty and parseable. -/
def widthOptionOf (container : Elem) : String :=
  match container.find (qWP "extent") with
  | none => "width=0.7\\linewidth"
  | some extent =>
    match extent.attr "cx" with
    | none => "width=0.7\\linewidth"
    | some cx =>
      if cx = "" then "width=0.7\\linewidth"
      else
        match parseInt cx with
        | some n => "width=" ++ formatIn2 n ++ "in"
        | none => "width=0.7\\linewidth"

/-- The caption lookup of `_convert_drawing` (source lines 430-433):
`doc_pr.attrib.get("descr") or doc_pr.attrib.get("title")`, with Python
string truthiness. -/
def captionOf (container : Elem) : Option String :=
  match container.find (qWP "docPr") with
  | none => none
  | some doc_pr =>
    match doc_pr.attr "descr" with
    | some s =>
      if s ≠ "" then some s
      else
        match doc_pr.attr "title" with
        | some tt => if tt ≠ "" then some tt else none
        | none => none
    | none =>
      match doc_pr.attr "title" with
      | some tt => if tt ≠ "" then some tt else none
      | none => none

/-- Model of `_convert_drawing` (source lines 393-442), restricted to its emitted
lines (the media-file copy is a side effect that does not influence them;
the destination path is `{stem}_media/{basename}` relative to the output
directory). -/
def _convert_drawing (cv : Conv) (d : Elem) : Option (List String) :=
  match drawingContainer d with
  | none => none
  | some container =>
    match drawingTarget cv d with
    | none => none
    | some target =>
      let dest_rel := cv.texStem ++ "_media/" ++ baseNameOf target
      let width_option := widthOptionOf container
      let head_lines :=
        ["\\begin" ++ lb ++ "figure" ++ rb ++ "[h]",
         "\\centering",
         "\\includegraphics[" ++ width_option ++ "]" ++ lb ++ escape_latex dest_rel ++ rb]
      let cap_lines :=
        match captionOf container with
        | some c => ["\\caption" ++ lb ++ escape_latex (normalize_whitespace c) ++ rb]
        | none => []
      some (head_lines ++ cap_lines ++ ["\\end" ++ lb ++ "figure" ++ rb])

/-- Model of `_convert_run` (source lines 334-355): dispatch on each child of the
run, accumulating inline text and block fragments. -/
def _convert_run (cv : Conv) (run : Elem) : String × List String :=
  run.children.toList.foldl (fun acc child =>
    if child.tag == qW "t" then (acc.1 ++ _format_run_text child run, acc.2)
    else if child.tag == qW "tab" then (acc.1 ++ "\\hspace*" ++ lb ++ "1em" ++ rb, acc.2)
    else if child.tag == qW "br" then (acc.1 ++ "\\\\", acc.2)
    else if child.tag == qW "drawing" then
      match _convert_drawing cv child with
      | some fig => if fig = [] then acc else (acc.1, acc.2 ++ fig)
      | none => acc
    else if child.tag == qW "pict" then
      (acc.1, acc.2 ++ ["% Picture element omitted (unsupported)"])
    else if child.tag == qM "oMath" || child.tag == qM "oMathPara" then
      let mt := _convert_math child
      if mt ≠ "" then (acc.1 ++ mt, acc.2) else acc
    else acc) ("", [])

/-- The per-run results of a hyperlink's direct `w:r` children
(source lines 321-325). -/
def hyperlinkRuns (cv : Conv) (h : Elem) : List (String × List String) :=
  (h.findall (qW "r")).map (_convert_run cv)

/-- The concatenated inner text of a hyperlink (source line 326). -/
def hyperlinkInnerText (cv : Conv) (h : Elem) : String :=
  String.join ((hyperlinkRuns cv h).map Prod.fst)

/-- The accumulated block fragments of a hyperlink's runs. -/
def hyperlinkBlocks (cv : Conv) (h : Elem) : List String :=
  (hyperlinkRuns cv h).foldl (fun a r => a ++ r.2) []

/-- Model of `_convert_hyperlink` (source lines 318-332): wrap the inner text in a
`\href` when the relationship id is truthy, resolves, and the inner text is
nonempty; otherwise emit the plain inner text. -/
def _convert_hyperlink (cv : Conv) (h : Elem) : String × List String :=
  let text_value := hyperlinkInnerText cv h
  let blocks := hyperlinkBlocks cv h
  match h.attr (qR "id") with
  | some rid =>
    if rid ≠ "" then
      match cv.relationships.lookup rid with
      | some rt =>
        if text_value ≠ "" then
          ("\\href" ++ lb ++ escape_latex rt.2 ++ rb ++ lb ++ text_value ++ rb, blocks)
        else (text_value, blocks)
      | none => (text_value, blocks)
    else (text_value, blocks)
  | none => (text_value, blocks)

/-- Model of `_collect_runs` (source lines 291-316): walk the inline children of a
paragraph-like container, concatenating texts and collecting blocks.
`w:proofErr`, `w:bookmarkStart`, `w:bookmarkEnd` and any unknown child are
no-ops. -/
def _collect_runs (cv : Conv) (p : Elem) : String × List String :=
  p.children.toList.foldl (fun acc child =>
    if child.tag == qW "r" then
      let r := _convert_run cv child
      (acc.1 ++ r.1, acc.2 ++ r.2)
    else if child.tag == qW "hyperlink" then
      let r := _convert_hyperlink cv child
      (acc.1 ++ r.1, acc.2 ++ r.2)
    else if child.tag == qW "fldSimple" then
      let rs := (child.findall (qW "r")).map (_convert_run cv)
      (acc.1 ++ String.join (rs.map Prod.fst), acc.2 ++ rs.foldl (fun a r => a ++ r.2) [])
    else if child.tag == qM "oMath" || child.tag == qM "oMathPara" then
      (acc.1 ++ _convert_math child, acc.2)
    else acc) ("", [])

/-- Model of `_paragraph_style` (source lines 492-499). -/
def _paragraph_style (p : Elem) : Option String :=
  match p.find (qW "pPr") with
  | none => none
  | some ppr =>
    match ppr.find (qW "pStyle") with
    | none => none
    | some style => style.attr (qW "val")

/-- The `w:numPr` element of a paragraph (source lines 502-507). -/
def numPrOf (p : Elem) : Option Elem :=
  match p.find (qW "pPr") with
  | none => none
  | some ppr => ppr.find (qW "numPr")

/-- The `w:ilvl` element under `w:numPr` (source line 514). -/
def ilvlOf (p : Elem) : Option Elem :=
  match numPrOf p with
  | none => none
  | some np => np.find (qW "ilvl")

/-- The nesting level computation of `_extract_list_info` (source lines
514-518): a missing `ilvl` element, a missing value (default "0"), or an
unparseable value all yield level 0. -/
def levelOf (p : Elem) : Int :=
  match ilvlOf p with
  | none => 0
  | some ie => (parseInt ((ie.attr (qW "val")).getD "0")).getD 0

/-- Model of `_extract_list_info` (source lines 501-521). -/
def _extract_list_info (cv : Conv) (p : Elem) : Option ListState :=
  match numPrOf p with
  | none => none
  | some np =>
    match np.find (qW "numId") with
    | none => none
    | some nie =>
      match nie.attr (qW "val") with
      | none => none
      | some nid =>
        if nid = "" then none
        else
          let level := levelOf p
          let fmt := (((cv.num_formats.lookup nid).getD []).lookup level).getD "bullet"
          let env := if fmt = "bullet" then "itemize" else "enumerate"
          some ⟨level, env, nid⟩

/-- The line-building part of `_convert_paragraph` (source lines 258-289),
given the directive lines the list-stack synchronisation produced. -/
def paragraphLines (cv : Conv) (p : Elem) (list_info : Option ListState)
    (suppress_list in_table : Bool) (syncLines : List String) : List String :=
  let cr := _collect_runs cv p
  let text_content := normalize_whitespace cr.1
  let style := _paragraph_style p
  if list_info.isSome ∧ suppress_list = false then
    if text_content = "" ∧ cr.2 = [] then syncLines
    else
      syncLines ++
        [if text_content ≠ "" then "\\item " ++ text_content else "\\item"] ++ cr.2
  else
    let body : List String :=
      if style = some "Heading1" ∧ text_content ≠ "" then
        ["\\section" ++ lb ++ text_content ++ rb]
      else if style = some "Heading2" ∧ text_content ≠ "" then
        ["\\subsection" ++ lb ++ text_content ++ rb]
      else if style = some "Heading3" ∧ text_content ≠ "" then
        ["\\subsubsection" ++ lb ++ text_content ++ rb]
      else if style = some "Title" ∧ text_content ≠ "" then
        ["\\title" ++ lb ++ text_content ++ rb, "\\maketitle"]
      else if text_content ≠ "" then [text_content]
      else []
    let lines := syncLines ++ body ++ cr.2
    if lines ≠ [] ∧ lines.getLast? = some "" then lines
    else if in_table = false ∧ lines ≠ [] then lines ++ [""]
    else lines

/-- Model of `_convert_paragraph` (source lines 246-289) as a pure state
transformer: the list stack is synchronised first (unless in a table), then
the lines are assembled. -/
def _convert_paragraph (cv : Conv) (st : List ListState) (p : Elem)
    (in_table suppress_list : Bool) : List String × List ListState :=
  let list_info := if suppress_list then none else _extract_list_info cv p
  let sp := if in_table then ([], st) else _sync_list_stack st list_info
  (paragraphLines cv p list_info suppress_list in_table sp.1, sp.2)

/-- The `w:gridSpan` element under a cell's `w:tcPr` (source lines
450-454). -/
def gridSpanOf (tc : Elem) : Option Elem :=
  match tc.find (qW "tcPr") with
  | none => none
  | some pr => pr.find (qW "gridSpan")

/-- The span extraction of `_convert_table` (source lines 450-458): missing
properties default to 1; an unparseable value falls back to 1. -/
def cellSpan (tc : Elem) : Int :=
  match gridSpanOf tc with
  | none => 1
  | some gs => (parseInt ((gs.attr (qW "val")).getD "1")).getD 1

/-- Model of `_convert_table_cell` (source lines 482-490): per paragraph, the
collected text is stripped (`text.strip()`, not `normalize_whitespace`) and
kept when nonempty, block fragments are appended, and the nonempty parts
are joined with a forced line break separator. -/
def _convert_table_cell (cv : Conv) (tc : Elem) : String :=
  let parts := (tc.findall (qW "p")).foldl (fun acc p =>
    let cr := _collect_runs cv p
    let content := stripOnly cr.1
    (if content ≠ "" then acc ++ [content] else acc) ++ cr.2) []
  String.intercalate " \\\\ " (parts.filter (fun s => s ≠ ""))

/-- One row of `rows_data` (source lines 448-460). -/
def rowData (cv : Conv) (tr : Elem) : List (String × Int) :=
  (tr.findall (qW "tc")).map (fun tc => (_convert_table_cell cv tc, cellSpan tc))

/-- The raw sum of a row's spans. -/
def rowRawSum (r : List (String × Int)) : Int :=
  (r.map Prod.snd).foldl (fun a b => a + b) 0

/-- Model of `span_total = sum(span for _, span in row_cells) or 1` (source line
461): Python `or` replaces a zero sum by 1. -/
def rowSpanTotal (r : List (String × Int)) : Int :=
  let s := rowRawSum r
  if s = 0 then 1 else s

/-- Model of `rows_data` (source lines 445-463). -/
def rowsData (cv : Conv) (tbl : Elem) : List (List (String × Int)) :=
  (tbl.findall (qW "tr")).map (rowData cv)

/-- Model of `max_cols` after the scan and the zero fix-up (source lines 446-466). -/
def maxCols (cv : Conv) (tbl : Elem) : Int :=
  let m := (rowsData cv tbl).foldl (fun acc r => max acc (rowSpanTotal r)) 0
  if m = 0 then 1 else m

/-- The per-column width expression (source line 467). -/
def colWidth (n : Int) : String :=
  "p" ++ lb ++ "\\dimexpr\\linewidth/" ++ toString n ++ "-2\\tabcolsep\\relax" ++ rb

/-- The column specification (source line 467). -/
def columnSpec (n : Int) : String :=
  "|" ++ String.intercalate "|" (List.replicate n.toNat (colWidth n)) ++ "|"

/-- One cell of a row line (source lines 471-476): empty content becomes a
placeholder glyph; a span above one becomes a `\multicolumn` directive. -/
def renderCell (n : Int) (c : String × Int) : String :=
  let cell_content := if c.1 ≠ "" then c.1 else "\\quad" ++ lb ++ rb
  if 1 < c.2 then
    "\\multicolumn" ++ lb ++ toString c.2 ++ rb ++ lb ++ "|" ++ colWidth n ++ "|" ++ rb ++
      lb ++ cell_content ++ rb
  else cell_content

/-- One emitted table row (source line 477). -/
def rowLine (n : Int) (r : List (String × Int)) : String :=
  String.intercalate " & " (r.map (renderCell n)) ++ " \\\\"

/-- Model of `_convert_table` (source lines 444-480). -/
def _convert_table (cv : Conv) (tbl : Elem) : List String :=
  let n := maxCols cv tbl
  ["\\begin" ++ lb ++ "longtable" ++ rb ++ lb ++ columnSpec n ++ rb, "\\hline"] ++
    ((rowsData cv tbl).flatMap (fun r => [rowLine n r, "\\hline"])) ++
    ["\\end" ++ lb ++ "longtable" ++ rb]

/-- Model of `_convert_block` (source lines 231-244): dispatch a body child on its
tag; tables and section breaks drain the list stack first; unknown blocks
are no-ops. -/
def _convert_block (cv : Conv) (st : List ListState) (e : Elem) :
    List String × List ListState :=
  if e.tag == qW "p" then _convert_paragraph cv st e false false
  else if e.tag == qW "tbl" then
    let closed := _close_all_lists st
    (closed.1 ++ _convert_table cv e ++ [""], closed.2)
  else if e.tag == qW "sectPr" then _close_all_lists st
  else ([], st)

/-- The stack effect of one body child. -/
def blockStep (cv : Conv) (st : List ListState) (e : Elem) : List ListState :=
  (_convert_block cv st e).2

/-- The list stack after the body-iteration loop of `convert` (source lines
110-111) has processed the given body children, starting from the empty
stack. -/
def stackAfter (cv : Conv) (blocks : List Elem) : List ListState :=
  blocks.foldl (blockStep cv) []

/-- One paragraph's list target driven into the machine: synchronise the
stack and append the emitted directive lines. -/
def driveStep (acc : List String × List ListState) (tgt : Option ListState) :
    List String × List ListState :=
  let r := _sync_list_stack acc.2 tgt
  (acc.1 ++ r.1, r.2)

/-- Drive `_sync_list_stack` over a sequence of paragraph list targets,
starting from the empty stack, accumulating all emitted directive lines. -/
def driveAll (ts : List (Option ListState)) : List String × List ListState :=
  ts.foldl driveStep ([], [])

/-- A directive line that opens an environment (`\begin...`): classified by
its first two characters, which distinguish the opens from the closes among
the lines the List State Machine emits. -/
def isOpenDirB (s : String) : Bool := s.data.take 2 == ['\\', 'b']

/-- A directive line that closes an environment (`\end...`). -/
def isCloseDirB (s : String) : Bool := s.data.take 2 == ['\\', 'e']

/-- An `\item` line, classified by its first five characters. -/
def isItemLine (s : String) : Bool := s.data.take 5 == ['\\', 'i', 't', 'e', 'm']

/-- Number of open directives among the given lines. -/
def opensC (l : List String) : Nat := l.countP isOpenDirB

/-- Number of close directives among the given lines. -/
def closesC (l : List String) : Nat := l.countP isCloseDirB

/-- A stack shape certificate: `mkStack ps` is the stack holding the
environment/numbering pairs `ps` (top first) at levels `length - 1, ..., 0`.
Every stack the converter can reach has this shape. -/
def mkStack : List (String × String) → List ListState
  | [] => []
  | p :: rest => ⟨(rest.length : Int), p.1, p.2⟩ :: mkStack rest

/-- The claim-level stack invariant: read from bottom to top, the levels are
exactly `0, 1, ..., depth - 1` — strictly increasing with no gaps.  (The
list is top-first, so the level sequence is the reversed range.) -/
def StrictNoGaps (st : List ListState) : Prop :=
  st.map (fun s => s.level) = ((List.range st.length).map (fun n => (n : Int))).reverse

/-- The body children whose handling fully drains the list stack: tables,
section-break markers, and paragraphs that carry no list target. -/
def drainBlock (cv : Conv) (e : Elem) : Prop :=
  e.tag = qW "tbl" ∨ e.tag = qW "sectPr" ∨ (e.tag = qW "p" ∧ _extract_list_info cv e = none)

/-! ## String facts about the emitted directive lines -/

theorem str_data_append (s t : String) : (s ++ t).data = s.data ++ t.data := by
  cases s
  cases t
  rfl

theorem beginLine_data (e : String) :
    (beginLine e).data = '\\' :: 'b' :: 'e' :: 'g' :: 'i' :: 'n' :: '{' :: (e.data ++ ['}']) := by
  have h1 : ("\\begin" : String).data = ['\\', 'b', 'e', 'g', 'i', 'n'] := rfl
  have h2 : lb.data = ['{'] := rfl
  have h3 : rb.data = ['}'] := rfl
  simp [beginLine, str_data_append, h1, h2, h3]

theorem endLine_data (e : String) :
    (endLine e).data = '\\' :: 'e' :: 'n' :: 'd' :: '{' :: (e.data ++ ['}']) := by
  have h1 : ("\\end" : String).data = ['\\', 'e', 'n', 'd'] := rfl
  have h2 : lb.data = ['{'] := rfl
  have h3 : rb.data = ['}'] := rfl
  simp [endLine, str_data_append, h1, h2, h3]

theorem isOpenDirB_begin (e : String) : isOpenDirB (beginLine e) = true := by
  simp [isOpenDirB, beginLine_data]

theorem isOpenDirB_end (e : String) : isOpenDirB (endLine e) = false := by
  simp [isOpenDirB, endLine_data]

theorem isCloseDirB_begin (e : String) : isCloseDirB (beginLine e) = false := by
  simp [isCloseDirB, beginLine_data]

theorem isCloseDirB_end (e : String) : isCloseDirB (endLine e) = true := by
  simp [isCloseDirB, endLine_data]

theorem isItemLine_begin (e : String) : isItemLine (beginLine e) = false := by
  simp [isItemLine, beginLine_data]

theorem isItemLine_end (e : String) : isItemLine (endLine e) = false := by
  simp [isItemLine, endLine_data]

/-! ## Directive balance: each emitted open is a push, each close a pop -/

theorem iteFT {α : Sort _} (a b : α) : (if (false = true) then a else b) = b :=
  if_neg (by simp)

theorem iteTT {α : Sort _} (a b : α) : (if (true = true) then a else b) = a :=
  if_pos rfl

theorem iteT {α : Sort _} (a b : α) : (if True then a else b) = a :=
  if_pos trivial

theorem closeAll_opens (st : List ListState) : opensC (_close_all_lists st).1 = 0 := by
  simp [opensC, _close_all_lists, List.countP_map, Function.comp, isOpenDirB_end]

theorem closeAll_closes (st : List ListState) : closesC (_close_all_lists st).1 = st.length := by
  simp [closesC, _close_all_lists, List.countP_map, Function.comp, isCloseDirB_end]

theorem popDeeper_balance (t : ListState) :
    ∀ st, opensC (popDeeper t st).1 = 0 ∧
      closesC (popDeeper t st).1 + (popDeeper t st).2.length = st.length := by
  intro st
  induction st with
  | nil => simp [popDeeper, opensC, closesC]
  | cons s rest ih =>
    by_cases h : t.level < s.level
    · have h1 := ih.1
      have h2 := ih.2
      simp only [popDeeper, if_pos h, opensC, closesC, List.countP_cons,
        isOpenDirB_end, isCloseDirB_end, List.length_cons, iteFT, iteTT, iteT] at h1 h2 ⊢
      omega
    · simp [popDeeper, h, opensC, closesC]

theorem pushLoopGo_balance (t : ListState) :
    ∀ fuel st, closesC (pushLoopGo t fuel st).1 = 0 ∧
      opensC (pushLoopGo t fuel st).1 + st.length = (pushLoopGo t fuel st).2.length := by
  intro fuel
  induction fuel with
  | zero => intro st; simp [pushLoopGo, opensC, closesC]
  | succ fuel ih =>
    intro st
    by_cases h : pushCond t st
    · have h1 := (ih (⟨(st.length : Int), t.env, t.num_id⟩ :: st)).1
      have h2 := (ih (⟨(st.length : Int), t.env, t.num_id⟩ :: st)).2
      simp only [pushLoopGo, if_pos h, opensC, closesC, List.countP_cons,
        isOpenDirB_begin, isCloseDirB_begin, List.length_cons, iteFT, iteTT, iteT] at h1 h2 ⊢
      omega
    · simp [pushLoopGo, h, opensC, closesC]

theorem syncSameLevel_balance (t : ListState) (st : List ListState) :
    opensC (syncSameLevel t st).1 = 0 ∧
      closesC (syncSameLevel t st).1 + (syncSameLevel t st).2.length = st.length := by
  match st with
  | [] => simp [syncSameLevel, opensC, closesC]
  | cur :: rest =>
    by_cases h : cur.level = t.level ∧ (cur.env ≠ t.env ∨ cur.num_id ≠ t.num_id)
    · simp only [syncSameLevel, if_pos h]
      simp [opensC, closesC, isOpenDirB_end, isCloseDirB_end]
      omega
    · simp [syncSameLevel, h, opensC, closesC]

theorem syncTail_balance (t : ListState) (st : List ListState) :
    opensC (syncTail t st).1 + st.length =
      closesC (syncTail t st).1 + (syncTail t st).2.length := by
  by_cases h : pushCond t st
  · simp only [syncTail, if_pos h, opensC, closesC, List.countP_cons, List.countP_nil,
      isOpenDirB_begin, isCloseDirB_begin, List.length_cons, iteFT, iteTT, iteT]
    omega
  · match st with
    | [] =>
      simp only [syncTail, if_neg h]
      simp [opensC, closesC, isOpenDirB_begin, isCloseDirB_begin]
    | cur :: rest =>
      by_cases h2 : cur.level = t.level ∧ (cur.env ≠ t.env ∨ cur.num_id ≠ t.num_id)
      · simp only [syncTail, if_neg h, if_pos h2]
        simp [opensC, closesC, isOpenDirB_begin, isCloseDirB_begin, isOpenDirB_end,
          isCloseDirB_end]
        try omega
      · simp [syncTail, h, h2, opensC, closesC]

theorem sync_balance (st : List ListState) (tgt : Option ListState) :
    opensC (_sync_list_stack st tgt).1 + st.length =
      closesC (_sync_list_stack st tgt).1 + (_sync_list_stack st tgt).2.length := by
  match tgt with
  | none =>
    have h1 := closeAll_opens st
    have h2 := closeAll_closes st
    have h3 : (_close_all_lists st).2 = [] := rfl
    show opensC (_close_all_lists st).1 + st.length =
      closesC (_close_all_lists st).1 + (_close_all_lists st).2.length
    rw [h1, h2, h3]
    simp
  | some t =>
    have h1 := popDeeper_balance t st
    have h2 := syncSameLevel_balance t (popDeeper t st).2
    have h3 := pushLoopGo_balance t (t.level.toNat + 2) (syncSameLevel t (popDeeper t st).2).2
    have h4 := syncTail_balance t (pushLoopGo t (t.level.toNat + 2) (syncSameLevel t (popDeeper t st).2).2).2
    simp only [_sync_list_stack, pushLoop, opensC, closesC, List.countP_append] at h1 h2 h3 h4 ⊢
    omega

theorem driveAll_eq (ts : List (Option ListState)) :
    driveAll ts = ts.foldl driveStep ([], []) := rfl

theorem driveAll_balance_aux :
    ∀ (ts : List (Option ListState)) (acc : List String × List ListState),
      opensC acc.1 = closesC acc.1 + acc.2.length →
      opensC ((ts.foldl driveStep acc).1) =
        closesC ((ts.foldl driveStep acc).1) + ((ts.foldl driveStep acc).2).length := by
  intro ts
  induction ts with
  | nil => intro acc h; simpa using h
  | cons tgt rest ih =>
    intro acc h
    simp only [List.foldl_cons]
    apply ih
    have hb := sync_balance acc.2 tgt
    simp only [driveStep, opensC, closesC, List.countP_append] at h hb ⊢
    omega

theorem driveAll_balance (ts : List (Option ListState)) :
    opensC (driveAll ts).1 = closesC (driveAll ts).1 + (driveAll ts).2.length := by
  rw [driveAll_eq]
  exact driveAll_balance_aux ts ([], []) (by simp [opensC, closesC])

/-! ## Stack shape invariant: every reachable stack is a `mkStack` -/

theorem mkStack_length : ∀ ps, (mkStack ps).length = ps.length := by
  intro ps
  induction ps with
  | nil => rfl
  | cons p rest ih => simp [mkStack, ih]

theorem mkStack_cons (t : ListState) (ps : List (String × String)) :
    (⟨((mkStack ps).length : Int), t.env, t.num_id⟩ :: mkStack ps) =
      mkStack ((t.env, t.num_id) :: ps) := by
  simp [mkStack, mkStack_length]

theorem popDeeper_mk (t : ListState) :
    ∀ ps, ∃ qs, (popDeeper t (mkStack ps)).2 = mkStack qs := by
  intro ps
  induction ps with
  | nil => exact ⟨[], rfl⟩
  | cons p rest ih =>
    by_cases h : t.level < ((rest.length : Int))
    · obtain ⟨qs, hq⟩ := ih
      refine ⟨qs, ?_⟩
      simp only [mkStack, popDeeper, if_pos h]
      exact hq
    · exact ⟨p :: rest, by simp only [mkStack, popDeeper, if_neg h]⟩

theorem syncSameLevel_mk (t : ListState) :
    ∀ ps, ∃ qs, (syncSameLevel t (mkStack ps)).2 = mkStack qs := by
  intro ps
  match ps with
  | [] => exact ⟨[], rfl⟩
  | p :: rest =>
    by_cases h : ((rest.length : Int)) = t.level ∧ (p.1 ≠ t.env ∨ p.2 ≠ t.num_id)
    · exact ⟨rest, by simp only [mkStack, syncSameLevel, if_pos h]⟩
    · exact ⟨p :: rest, by simp only [mkStack, syncSameLevel, if_neg h]⟩

theorem pushLoopGo_mk (t : ListState) :
    ∀ fuel ps, ∃ qs, (pushLoopGo t fuel (mkStack ps)).2 = mkStack qs := by
  intro fuel
  induction fuel with
  | zero => intro ps; exact ⟨ps, rfl⟩
  | succ fuel ih =>
    intro ps
    by_cases h : pushCond t (mkStack ps)
    · obtain ⟨qs, hq⟩ := ih ((t.env, t.num_id) :: ps)
      refine ⟨qs, ?_⟩
      simp only [pushLoopGo, if_pos h]
      rw [mkStack_cons t ps]
      exact hq
    · exact ⟨ps, by simp only [pushLoopGo, if_neg h]⟩

theorem pushLoopGo_exit (t : ListState) :
    ∀ fuel ps, t.level.toNat + 1 ≤ fuel + ps.length →
      pushCond t (pushLoopGo t fuel (mkStack ps)).2 = false := by
  intro fuel
  induction fuel with
  | zero =>
    intro ps h
    match ps with
    | [] => simp at h
    | p :: rest =>
      show pushCond t (mkStack (p :: rest)) = false
      simp only [mkStack, pushCond, decide_eq_false_iff_not]
      simp only [List.length_cons] at h
      omega
  | succ fuel ih =>
    intro ps h
    by_cases hc : pushCond t (mkStack ps)
    · simp only [pushLoopGo, if_pos hc]
      rw [mkStack_cons t ps]
      exact ih ((t.env, t.num_id) :: ps) (by simp only [List.length_cons]; omega)
    · simp only [pushLoopGo, if_neg hc]
      simpa using hc

theorem syncTail_mk (t : ListState) (ps : List (String × String))
    (h : pushCond t (mkStack ps) = false) :
    ∃ qs, (syncTail t (mkStack ps)).2 = mkStack qs := by
  match ps with
  | [] => simp [mkStack, pushCond] at h
  | p :: rest =>
    have hb : ¬(pushCond t (mkStack (p :: rest)) = true) := by simp [h]
    obtain ⟨tl, te, tn⟩ := t
    by_cases h2 : ((rest.length : Int)) = tl ∧ (p.1 ≠ te ∨ p.2 ≠ tn)
    · refine ⟨(te, tn) :: rest, ?_⟩
      simp only [mkStack, syncTail] at hb ⊢
      rw [if_neg hb]
      rw [if_pos (by simpa using h2)]
      simp [mkStack, h2.1]
    · refine ⟨p :: rest, ?_⟩
      simp only [mkStack, syncTail] at hb ⊢
      rw [if_neg hb]
      rw [if_neg (by simpa using h2)]

theorem sync_snd_eq (st : List ListState) (t : ListState) :
    (_sync_list_stack st (some t)).2 =
      (syncTail t (pushLoopGo t (t.level.toNat + 2)
        (syncSameLevel t (popDeeper t st).2).2).2).2 := rfl

theorem sync_mk (ps : List (String × String)) (tgt : Option ListState) :
    ∃ qs, (_sync_list_stack (mkStack ps) tgt).2 = mkStack qs := by
  match tgt with
  | none => exact ⟨[], rfl⟩
  | some t =>
    obtain ⟨qs1, h1⟩ := popDeeper_mk t ps
    obtain ⟨qs2, h2⟩ := syncSameLevel_mk t qs1
    obtain ⟨qs3, h3⟩ := pushLoopGo_mk t (t.level.toNat + 2) qs2
    have hexit : pushCond t (pushLoopGo t (t.level.toNat + 2) (mkStack qs2)).2 = false :=
      pushLoopGo_exit t (t.level.toNat + 2) qs2 (by omega)
    rw [h3] at hexit
    obtain ⟨qs4, h4⟩ := syncTail_mk t qs3 hexit
    refine ⟨qs4, ?_⟩
    rw [sync_snd_eq, h1, h2, h3, h4]

/-! ## The block dispatcher's stack effect -/

theorem qW_tbl_ne_p : qW "tbl" ≠ qW "p" := by decide

theorem qW_sectPr_ne_p : qW "sectPr" ≠ qW "p" := by decide

theorem qW_sectPr_ne_tbl : qW "sectPr" ≠ qW "tbl" := by decide

theorem convert_paragraph_snd (cv : Conv) (st : List ListState) (p : Elem) :
    (_convert_paragraph cv st p false false).2 =
      (_sync_list_stack st (_extract_list_info cv p)).2 := rfl

theorem blockStep_p (cv : Conv) (st : List ListState) (e : Elem) (h : e.tag = qW "p") :
    blockStep cv st e = (_sync_list_stack st (_extract_list_info cv e)).2 := by
  simp only [blockStep, _convert_block, h, beq_self_eq_true, if_pos]
  exact convert_paragraph_snd cv st e

theorem blockStep_tbl (cv : Conv) (st : List ListState) (e : Elem) (h : e.tag = qW "tbl") :
    blockStep cv st e = [] := by
  simp [blockStep, _convert_block, h, qW_tbl_ne_p, _close_all_lists]

theorem blockStep_sectPr (cv : Conv) (st : List ListState) (e : Elem) (h : e.tag = qW "sectPr") :
    blockStep cv st e = [] := by
  simp [blockStep, _convert_block, h, qW_sectPr_ne_p, qW_sectPr_ne_tbl, _close_all_lists]

theorem blockStep_other (cv : Conv) (st : List ListState) (e : Elem)
    (h1 : e.tag ≠ qW "p") (h2 : e.tag ≠ qW "tbl") (h3 : e.tag ≠ qW "sectPr") :
    blockStep cv st e = st := by
  simp [blockStep, _convert_block, h1, h2, h3]

theorem blockStep_mk (cv : Conv) (e : Elem) (ps : List (String × String)) :
    ∃ qs, blockStep cv (mkStack ps) e = mkStack qs := by
  by_cases h1 : e.tag = qW "p"
  · rw [blockStep_p cv _ e h1]
    exact sync_mk ps _
  · by_cases h2 : e.tag = qW "tbl"
    · exact ⟨[], blockStep_tbl cv _ e h2⟩
    · by_cases h3 : e.tag = qW "sectPr"
      · exact ⟨[], blockStep_sectPr cv _ e h3⟩
      · exact ⟨ps, blockStep_other cv _ e h1 h2 h3⟩

theorem stackAfter_mk_aux (cv : Conv) :
    ∀ (blocks : List Elem) (ps : List (String × String)),
      ∃ qs, blocks.foldl (blockStep cv) (mkStack ps) = mkStack qs := by
  intro blocks
  induction blocks with
  | nil => intro ps; exact ⟨ps, rfl⟩
  | cons e rest ih =>
    intro ps
    obtain ⟨qs1, h1⟩ := blockStep_mk cv e ps
    obtain ⟨qs2, h2⟩ := ih qs1
    refine ⟨qs2, ?_⟩
    simp only [List.foldl_cons, h1, h2]

theorem stackAfter_mk (cv : Conv) (blocks : List Elem) :
    ∃ qs, stackAfter cv blocks = mkStack qs :=
  stackAfter_mk_aux cv blocks []

theorem mkStack_strict : ∀ ps, StrictNoGaps (mkStack ps) := by
  intro ps
  induction ps with
  | nil => rfl
  | cons p rest ih =>
    simp only [StrictNoGaps, mkStack, List.map_cons, mkStack_length, List.length_cons,
      List.range_succ, List.map_append, List.reverse_append] at ih ⊢
    simp [ih]

/-! ## The machine emits only open/close directive lines -/

theorem popDeeper_mem (t : ListState) :
    ∀ st l, l ∈ (popDeeper t st).1 → ∃ e, l = endLine e := by
  intro st
  induction st with
  | nil => intro l hl; simp [popDeeper] at hl
  | cons s rest ih =>
    intro l hl
    by_cases h : t.level < s.level
    · simp only [popDeeper, if_pos h, List.mem_cons] at hl
      rcases hl with hl | hl
      · exact ⟨s.env, hl⟩
      · exact ih l hl
    · simp [popDeeper, h] at hl

theorem pushLoopGo_mem (t : ListState) :
    ∀ fuel st l, l ∈ (pushLoopGo t fuel st).1 → l = beginLine t.env := by
  intro fuel
  induction fuel with
  | zero => intro st l hl; simp [pushLoopGo] at hl
  | succ fuel ih =>
    intro st l hl
    by_cases h : pushCond t st
    · simp only [pushLoopGo, if_pos h, List.mem_cons] at hl
      rcases hl with hl | hl
      · exact hl
      · exact ih _ l hl
    · simp [pushLoopGo, h] at hl

theorem syncSameLevel_mem (t : ListState) (st : List ListState) (l : String)
    (hl : l ∈ (syncSameLevel t st).1) : ∃ e, l = endLine e := by
  match st with
  | [] => simp [syncSameLevel] at hl
  | cur :: rest =>
    by_cases h : cur.level = t.level ∧ (cur.env ≠ t.env ∨ cur.num_id ≠ t.num_id)
    · simp only [syncSameLevel, if_pos h, List.mem_singleton] at hl
      exact ⟨cur.env, hl⟩
    · simp [syncSameLevel, h] at hl

theorem syncTail_mem (t : ListState) (st : List ListState) (l : String)
    (hl : l ∈ (syncTail t st).1) : (∃ e, l = endLine e) ∨ ∃ e, l = beginLine e := by
  by_cases h : pushCond t st
  · simp only [syncTail, if_pos h, List.mem_singleton] at hl
    exact Or.inr ⟨t.env, hl⟩
  · match st with
    | [] =>
      simp only [syncTail, if_neg h, List.mem_singleton] at hl
      exact Or.inr ⟨t.env, hl⟩
    | cur :: rest =>
      by_cases h2 : cur.level = t.level ∧ (cur.env ≠ t.env ∨ cur.num_id ≠ t.num_id)
      · simp only [syncTail, if_neg h, if_pos h2, List.mem_cons, List.not_mem_nil,
          or_false] at hl
        rcases hl with hl | hl
        · exact Or.inl ⟨cur.env, hl⟩
        · exact Or.inr ⟨t.env, hl⟩
      · simp [syncTail, h, h2] at hl

theorem sync_lines_eq (st : List ListState) (t : ListState) :
    (_sync_list_stack st (some t)).1 =
      (popDeeper t st).1 ++ (syncSameLevel t (popDeeper t st).2).1 ++
      (pushLoopGo t (t.level.toNat + 2) (syncSameLevel t (popDeeper t st).2).2).1 ++
      (syncTail t (pushLoopGo t (t.level.toNat + 2)
        (syncSameLevel t (popDeeper t st).2).2).2).1 := rfl

theorem sync_mem (st : List ListState) (tgt : Option ListState) (l : String)
    (hl : l ∈ (_sync_list_stack st tgt).1) :
    (∃ e, l = endLine e) ∨ ∃ e, l = beginLine e := by
  match tgt with
  | none =>
    simp only [_sync_list_stack, _close_all_lists, List.mem_map] at hl
    obtain ⟨s, _, hs⟩ := hl
    exact Or.inl ⟨s.env, hs.symm⟩
  | some t =>
    rw [sync_lines_eq] at hl
    simp only [List.mem_append] at hl
    rcases hl with ((hl | hl) | hl) | hl
    · exact Or.inl (popDeeper_mem t st l hl)
    · exact Or.inl (syncSameLevel_mem t _ l hl)
    · exact Or.inr ⟨t.env, pushLoopGo_mem t _ _ l hl⟩
    · exact syncTail_mem t _ l hl

theorem sync_no_item (st : List ListState) (tgt : Option ListState) (l : String)
    (hl : l ∈ (_sync_list_stack st tgt).1) : isItemLine l = false := by
  rcases sync_mem st tgt l hl with ⟨e, he⟩ | ⟨e, he⟩
  · rw [he]; exact isItemLine_end e
  · rw [he]; exact isItemLine_begin e

/-- A paragraph whose target exactly matches the top of the stack emits no
directive at all and leaves the stack unchanged. -/
theorem sync_noop (t : ListState) (rest : List ListState) :
    _sync_list_stack (t :: rest) (some t) = ([], t :: rest) := by
  have h1 : popDeeper t (t :: rest) = ([], t :: rest) := by simp [popDeeper]
  have h2 : syncSameLevel t (t :: rest) = ([], t :: rest) := by simp [syncSameLevel]
  have h3 : pushLoopGo t (t.level.toNat + 2) (t :: rest) = ([], t :: rest) := by
    simp [pushLoopGo, pushCond]
  have h4 : syncTail t (t :: rest) = ([], t :: rest) := by simp [syncTail, pushCond]
  simp only [_sync_list_stack, pushLoop, h1, h2, h3, h4]
  simp

/-! ## Concrete document fragments used by witnesses and counterexamples -/

/-- A converter state with empty maps. -/
def cvEmpty : Conv := ⟨[], [], [], "doc"⟩

/-- A list paragraph carrying only `pPr/numPr/numId` (no runs). -/
def numPrP (nid : String) : Elem :=
  mkE (qW "p") []
    [mkE (qW "pPr") []
      [mkE (qW "numPr") [] [mkE (qW "numId") [(qW "val", nid)] [] none] none] none] none

/-- An empty table element. -/
def tblEmpty : Elem := mkE (qW "tbl") [] [] none

/-! ## Claim theorems -/

/-- C2: for every input document, the list stack is strictly increasing in
nesting level from bottom to top with no gaps, and it is fully drained
(depth 0) after the handling of any non-list paragraph, any table, and any
section-break marker, and by the end-of-document drain.  ("Any other/unknown
block kind" is a forward-compatible skip with no state change, per the
dispatcher, so the drain applies to the recognised non-list blocks.) -/
theorem c2_stack_invariant (cv : Conv) (blocks : List Elem) (e : Elem) :
    StrictNoGaps (stackAfter cv blocks) ∧
    (drainBlock cv e → stackAfter cv (blocks ++ [e]) = []) ∧
    (_close_all_lists (stackAfter cv blocks)).2 = [] := by
  refine ⟨?_, ?_, rfl⟩
  · obtain ⟨ps, hp⟩ := stackAfter_mk cv blocks
    rw [hp]
    exact mkStack_strict ps
  · intro hd
    have happ : stackAfter cv (blocks ++ [e]) = blockStep cv (stackAfter cv blocks) e := by
      simp [stackAfter, List.foldl_append]
    rw [happ]
    rcases hd with h | h | ⟨hp, hn⟩
    · exact blockStep_tbl cv _ e h
    · exact blockStep_sectPr cv _ e h
    · rw [blockStep_p cv _ e hp, hn]
      rfl

/-- Witness for C2 at a concrete document: a list paragraph followed by a
table leaves the stack empty. -/
theorem c2_stack_invariant_witness :
    stackAfter cvEmpty ([numPrP "5"] ++ [tblEmpty]) = [] :=
  (c2_stack_invariant cvEmpty [numPrP "5"] tblEmpty).2.1 (Or.inl rfl)

/-- C3: over any prefix of a target sequence driven through the List State
Machine from the empty stack, the number of open directives minus close
directives emitted equals the stack depth at that point; and a paragraph
whose target equals the current top entry (level, environment, numbering
identity) emits no close-then-immediate-reopen — it emits nothing at all. -/
theorem c3_prefix_balance_no_reopen (ts : List (Option ListState)) (n : Nat)
    (t : ListState) (rest : List ListState) :
    opensC (driveAll (ts.take n)).1 =
      closesC (driveAll (ts.take n)).1 + (driveAll (ts.take n)).2.length ∧
    _sync_list_stack (t :: rest) (some t) = ([], t :: rest) :=
  ⟨driveAll_balance (ts.take n), sync_noop t rest⟩

/-- C9: a list paragraph whose content yields empty text and no block
fragments emits exactly the stack-synchronisation directives — no `\item`
line — and its target still drives the stack bookkeeping. -/
theorem c9_empty_list_item (cv : Conv) (st : List ListState) (p : Elem) (t : ListState)
    (h1 : _extract_list_info cv p = some t)
    (h2 : normalize_whitespace (_collect_runs cv p).1 = "")
    (h3 : (_collect_runs cv p).2 = []) :
    _convert_paragraph cv st p false false = _sync_list_stack st (some t) ∧
    ∀ l ∈ (_convert_paragraph cv st p false false).1, isItemLine l = false := by
  have hpar : _convert_paragraph cv st p false false =
      (paragraphLines cv p (some t) false false (_sync_list_stack st (some t)).1,
       (_sync_list_stack st (some t)).2) := by
    simp [_convert_paragraph, h1]
  have hlines : paragraphLines cv p (some t) false false (_sync_list_stack st (some t)).1 =
      (_sync_list_stack st (some t)).1 := by
    simp [paragraphLines, h2, h3]
  refine ⟨?_, ?_⟩
  · rw [hpar, hlines]
  · intro l hl
    rw [hpar] at hl
    simp only [hlines] at hl
    exact sync_no_item st (some t) l hl

/-- Witness for C9: a list paragraph with no runs at all, on the empty
stack. -/
theorem c9_empty_list_item_witness :
    _convert_paragraph cvEmpty [] (numPrP "5") false false =
      _sync_list_stack [] (some ⟨0, "itemize", "5"⟩) ∧
    ∀ l ∈ (_convert_paragraph cvEmpty [] (numPrP "5") false false).1, isItemLine l = false :=
  c9_empty_list_item cvEmpty [] (numPrP "5") ⟨0, "itemize", "5"⟩ rfl rfl rfl

/-- C5: the Escaper maps exactly the ten metacharacters to their canonical
escape sequences and leaves every other character unchanged; escaping
`50% & $5` once yields `50\% \& \$5`; applying the Escaper a second time to
that output (which contains escapes) produces a different, over-escaped
string. -/
theorem c5_escaper (c : Char) (hc : c ∉ replacements.map Prod.fst) :
    escapeChar c = String.singleton c ∧
    escapeChar '\\' = "\\textbackslash" ++ lb ++ rb ∧
    escapeChar '&' = "\\&" ∧
    escapeChar '%' = "\\%" ∧
    escapeChar '$' = "\\$" ∧
    escapeChar '#' = "\\#" ∧
    escapeChar '_' = "\\_" ∧
    escapeChar '{' = "\\" ++ lb ∧
    escapeChar '}' = "\\" ++ rb ∧
    escapeChar '~' = "\\textasciitilde" ++ lb ++ rb ∧
    escapeChar '^' = "\\textasciicircum" ++ lb ++ rb ∧
    escape_latex "50% & $5" = "50\\% \\& \\$5" ∧
    escape_latex (escape_latex "50% & $5") ≠ escape_latex "50% & $5" := by
  refine ⟨?_, by decide⟩
  simp only [replacements, List.map_cons, List.map_nil, List.mem_cons, List.not_mem_nil,
    or_false, not_or] at hc
  obtain ⟨h1, h2, h3, h4, h5, h6, h7, h8, h9, h10⟩ := hc
  have b1 : (c == '\\') = false := beq_eq_false_iff_ne.mpr h1
  have b2 : (c == '&') = false := beq_eq_false_iff_ne.mpr h2
  have b3 : (c == '%') = false := beq_eq_false_iff_ne.mpr h3
  have b4 : (c == '$') = false := beq_eq_false_iff_ne.mpr h4
  have b5 : (c == '#') = false := beq_eq_false_iff_ne.mpr h5
  have b6 : (c == '_') = false := beq_eq_false_iff_ne.mpr h6
  have b7 : (c == '{') = false := beq_eq_false_iff_ne.mpr h7
  have b8 : (c == '}') = false := beq_eq_false_iff_ne.mpr h8
  have b9 : (c == '~') = false := beq_eq_false_iff_ne.mpr h9
  have b10 : (c == '^') = false := beq_eq_false_iff_ne.mpr h10
  simp [escapeChar, replacements, List.lookup, b1, b2, b3, b4, b5, b6, b7, b8, b9, b10]

/-- Witness for C5 at the concrete non-metacharacter `a`. -/
theorem c5_escaper_witness : escapeChar 'a' = String.singleton 'a' :=
  (c5_escaper 'a' (by decide)).1

/-- The run's text node used by the C1 counterexample. -/
def tNodeX : Elem := mkE (qW "t") [] [] (some "x")

/-- A run that is bold and superscript. -/
def runBSup : Elem :=
  mkE (qW "r") []
    [mkE (qW "rPr") []
      [mkE (qW "b") [] [] none,
       mkE (qW "vertAlign") [(qW "val", "superscript")] [] none] none,
     tNodeX] none

/-- C1 counterexample: on a bold superscript run the code emits the bold
wrapper outermost and the superscript wrapper innermost, not the
superscript wrapper outermost as the claim states. -/
theorem c1_style_order_counterexample :
    _format_run_text tNodeX runBSup =
      "\\textbf" ++ lb ++ "\\textsuperscript" ++ lb ++ "x" ++ rb ++ rb ∧
    _format_run_text tNodeX runBSup ≠
      "\\textsuperscript" ++ lb ++ "\\textbf" ++ lb ++ "x" ++ rb ++ rb := by
  constructor
  · decide
  · decide

/-- The amended C1 contract: the superscript-or-subscript wrapper is applied
first (innermost, directly around the escaped text), then bold-wrap, then
emphasis-wrap, then underline-wrap (only if the underline element is present
and its value is not "none"), so the last-applied wrapper — underline when
present — is outermost; each wrapper is applied exactly once. -/
def formatRunTextSpec (text_node run : Elem) : String :=
  let escaped := escape_latex (text_node.text.getD "")
  match run.find (qW "rPr") with
  | none => escaped
  | some rpr =>
    let v :=
      match rpr.find (qW "vertAlign") with
      | some va =>
        match va.attr (qW "val") with
        | some "superscript" => "\\textsuperscript" ++ lb ++ escaped ++ rb
        | some "subscript" => "\\textsubscript" ++ lb ++ escaped ++ rb
        | _ => escaped
      | none => escaped
    let b := if (rpr.find (qW "b")).isSome then "\\textbf" ++ lb ++ v ++ rb else v
    let i := if (rpr.find (qW "i")).isSome then "\\emph" ++ lb ++ b ++ rb else b
    match rpr.find (qW "u") with
    | some ue =>
      if ((ue.attr (qW "val")).getD "").toLower ≠ "none" then "\\underline" ++ lb ++ i ++ rb
      else i
    | none => i

/-- C1 (amended): `_format_run_text` composes the style wrappers in the
fixed order superscript/subscript first (innermost), then bold, then
emphasis, then underline (outermost), each exactly once per present flag. -/
theorem c1_style_order (tn run : Elem) :
    _format_run_text tn run = formatRunTextSpec tn run := by
  unfold _format_run_text formatRunTextSpec
  cases hr : run.find (qW "rPr") with
  | none => rfl
  | some rpr =>
    cases hb : (rpr.find (qW "b")).isSome <;>
      cases hi : (rpr.find (qW "i")).isSome <;>
      rcases hu : rpr.find (qW "u") with _ | ue
    all_goals simp only [hb, hi, hu, iteFT, iteTT]
    all_goals try rfl
    all_goals
      (by_cases hv : ((ue.attr (qW "val")).getD "").toLower ≠ "none" <;>
        first
          | (simp only [if_pos hv]; rfl)
          | (simp only [if_neg hv]; rfl))

/-- Paragraph element holding one run with the given literal text. -/
def runT (s : String) : Elem := mkE (qW "r") [] [mkE (qW "t") [] [] (some s)] none

/-- A paragraph holding one run with the given literal text. -/
def pRunT (s : String) : Elem := mkE (qW "p") [] [runT s] none

/-- A table cell holding one paragraph with the given literal text. -/
def tcText (s : String) : Elem := mkE (qW "tc") [] [pRunT s] none

/-- C4 counterexample: on the cell text `a  b` (two inner spaces) the cell
conversion yields `a  b` while the paragraph normalization function yields
`a b` — the cell path does not reuse the normalization function. -/
theorem c4_cell_normalizer_counterexample :
    _convert_table_cell cvEmpty (tcText "a  b") = "a  b" ∧
    normalize_whitespace "a  b" = "a b" ∧
    _convert_table_cell cvEmpty (tcText "a  b") ≠ normalize_whitespace "a  b" := by
  refine ⟨by decide, by decide, by decide⟩

/-- C4 (amended): paragraph text (outside tables) is whitespace-normalized
by `normalize_whitespace` (collapse runs, trim); table-cell text is only
trimmed with a plain strip, which is a different operation from the
paragraph normalization function (no internal collapsing). -/
theorem c4_whitespace (cv : Conv) (st : List ListState) (p : Elem) (tc : Elem) (p1 : Elem)
    (hs : _paragraph_style p = none)
    (he : _extract_list_info cv p = none)
    (hb : (_collect_runs cv p).2 = [])
    (ht : normalize_whitespace (_collect_runs cv p).1 ≠ "")
    (hc : tc.findall (qW "p") = [p1])
    (hb1 : (_collect_runs cv p1).2 = []) :
    _convert_paragraph cv st p false false =
      ((_close_all_lists st).1 ++ [normalize_whitespace (_collect_runs cv p).1, ""], []) ∧
    _convert_table_cell cv tc = stripOnly (_collect_runs cv p1).1 ∧
    stripOnly "a  b" ≠ normalize_whitespace "a  b" := by
  refine ⟨?_, ?_, by decide⟩
  · have hpar : _convert_paragraph cv st p false false =
        (paragraphLines cv p none false false (_sync_list_stack st none).1,
         (_sync_list_stack st none).2) := by
      simp [_convert_paragraph, he]
    rw [hpar]
    have h2 : (_sync_list_stack st none).2 = [] := rfl
    have h1 : (_sync_list_stack st none).1 = (_close_all_lists st).1 := rfl
    rw [h1, h2]
    simp only [paragraphLines, hs, hb, ht]
    simp [ht, List.getLast?_concat]
  · simp only [_convert_table_cell, hc, List.foldl_cons, List.foldl_nil, hb1]
    by_cases hcc : stripOnly (_collect_runs cv p1).1 = ""
    · simp [hcc]
      rfl
    · simp only [List.append_nil, List.nil_append, hcc, ne_eq, not_false_iff, if_pos]
      simp [hcc]
      rfl

/-- Witness for C4 at concrete paragraph and cell contents. -/
theorem c4_whitespace_witness :
    _convert_paragraph cvEmpty [] (pRunT "x  y") false false =
      ((_close_all_lists ([] : List ListState)).1 ++
        [normalize_whitespace (_collect_runs cvEmpty (pRunT "x  y")).1, ""], []) ∧
    _convert_table_cell cvEmpty (tcText "a") =
      stripOnly (_collect_runs cvEmpty (pRunT "a")).1 ∧
    stripOnly "a  b" ≠ normalize_whitespace "a  b" :=
  c4_whitespace cvEmpty [] (pRunT "x  y") (tcText "a") (pRunT "a")
    rfl rfl rfl (by decide) rfl rfl

/-- The id-and-relationship resolution check of `_convert_hyperlink`
(source line 327): the id attribute is present, truthy, and resolves in the
relationship map. -/
def resolvesB (cv : Conv) (h : Elem) : Bool :=
  match h.attr (qR "id") with
  | some rid => (!(rid == "")) && (cv.relationships.lookup rid).isSome
  | none => false

/-- The relationship target the hyperlink resolves to, when it does. -/
def resolvedTarget (cv : Conv) (h : Elem) : Option String :=
  match h.attr (qR "id") with
  | some rid =>
    if rid = "" then none else (cv.relationships.lookup rid).map (fun rt => rt.2)
  | none => none

/-- C10: the hyperlink wrapper is produced exactly when the relationship
resolves and the inner text is nonempty; in every other case — including a
resolving relationship with empty inner text — the plain inner text is
emitted unwrapped. -/
theorem c10_hyperlink (cv : Conv) (h : Elem) :
    (_convert_hyperlink cv h).1 =
      if resolvesB cv h ∧ hyperlinkInnerText cv h ≠ "" then
        "\\href" ++ lb ++ escape_latex ((resolvedTarget cv h).getD "") ++ rb ++ lb ++
          hyperlinkInnerText cv h ++ rb
      else hyperlinkInnerText cv h := by
  unfold _convert_hyperlink resolvesB resolvedTarget
  rcases ha : h.attr (qR "id") with _ | rid
  · simp [ha]
  · by_cases hr : rid = ""
    · simp [ha, hr]
    · rcases hl : cv.relationships.lookup rid with _ | rt
      · simp [ha, hr, hl]
      · by_cases htv : hyperlinkInnerText cv h = ""
        · simp [ha, hr, hl, htv]
        · simp [ha, hr, hl, htv]

/-- C7: missing or malformed attributes degrade to defaults: a numbering id
absent from the numbering map (or a missing level entry) yields the
bulleted `itemize` environment; an unparseable or missing `ilvl` value
falls back to level 0; an unparseable `gridSpan` value falls back to
span 1. -/
theorem c7_defaults (cv : Conv) (p : Elem) (ls : ListState) (tc : Elem) (gs : Elem)
    (h1 : _extract_list_info cv p = some ls)
    (h2 : cv.num_formats.lookup ls.num_id = none ∨
          ∃ lvls, cv.num_formats.lookup ls.num_id = some lvls ∧ lvls.lookup ls.level = none)
    (h3 : ilvlOf p = none ∨
          ∃ ie, ilvlOf p = some ie ∧ parseInt ((ie.attr (qW "val")).getD "0") = none)
    (h4 : gridSpanOf tc = some gs)
    (h5 : parseInt ((gs.attr (qW "val")).getD "1") = none) :
    ls.env = "itemize" ∧ ls.level = 0 ∧ cellSpan tc = 1 := by
  have hlevel : levelOf p = 0 := by
    rcases h3 with h3 | ⟨ie, hie, hpi⟩
    · simp [levelOf, h3]
    · simp [levelOf, hie, hpi]
  rcases hnp : numPrOf p with _ | np
  · simp [_extract_list_info, hnp] at h1
  rcases hni : np.find (qW "numId") with _ | nie
  · simp [_extract_list_info, hnp, hni] at h1
  rcases hv : nie.attr (qW "val") with _ | nid
  · simp [_extract_list_info, hnp, hni, hv] at h1
  by_cases hnid : nid = ""
  · simp [_extract_list_info, hnp, hni, hv, hnid] at h1
  simp only [_extract_list_info, hnp, hni, hv, if_neg hnid, Option.some.injEq] at h1
  have hfields : ls.level = levelOf p ∧ ls.num_id = nid ∧
      ls.env = (if ((((cv.num_formats.lookup nid).getD []).lookup (levelOf p)).getD "bullet")
          = "bullet" then "itemize" else "enumerate") := by
    rw [← h1]
    exact ⟨rfl, rfl, rfl⟩
  have hl0 : ls.level = 0 := by rw [hfields.1, hlevel]
  refine ⟨?_, hl0, by simp [cellSpan, h4, h5]⟩
  have hnn : ls.num_id = nid := hfields.2.1
  rcases h2 with h2 | ⟨lvls, hlv, hnone⟩
  · rw [hnn] at h2
    rw [hfields.2.2, h2]
    simp
  · rw [hnn] at hlv
    rw [hfields.2.2, hlv]
    rw [hfields.1, hlevel] at hnone
    rw [hlevel] at *
    simp [hnone]

/-- A paragraph whose numbering id is "9" (absent from the empty map) and
whose `ilvl` value "zz" is unparseable. -/
def pC7 : Elem :=
  mkE (qW "p") []
    [mkE (qW "pPr") []
      [mkE (qW "numPr") []
        [mkE (qW "numId") [(qW "val", "9")] [] none,
         mkE (qW "ilvl") [(qW "val", "zz")] [] none] none] none] none

/-- The unparseable `ilvl` element of `pC7`. -/
def ilvlC7 : Elem := mkE (qW "ilvl") [(qW "val", "zz")] [] none

/-- A cell whose `gridSpan` value "xx" is unparseable. -/
def tcC7 : Elem :=
  mkE (qW "tc") [] [mkE (qW "tcPr") [] [mkE (qW "gridSpan") [(qW "val", "xx")] [] none] none] none

/-- The unparseable `gridSpan` element of `tcC7`. -/
def gsC7 : Elem := mkE (qW "gridSpan") [(qW "val", "xx")] [] none

/-- Witness for C7 at concrete malformed attributes. -/
theorem c7_defaults_witness :
    (⟨0, "itemize", "9"⟩ : ListState).env = "itemize" ∧
    (⟨0, "itemize", "9"⟩ : ListState).level = 0 ∧
    cellSpan tcC7 = 1 :=
  c7_defaults cvEmpty pC7 ⟨0, "itemize", "9"⟩ tcC7 gsC7
    rfl (Or.inl rfl) (Or.inr ⟨ilvlC7, rfl, rfl⟩) rfl rfl

/-- C8: a drawing whose container has a physical extent of exactly 914400
native units gets the width option `width=1.00in` (extent divided by 914400
units per inch, two-decimal rendering); a container with no extent element
gets the default `width=0.7\linewidth`; and the emitted `\includegraphics`
line carries exactly that width option. -/
theorem c8_media_width (cv : Conv) (d : Elem) (cont : Elem) (lines : List String)
    (tgt : String) (ext : Elem)
    (hc : drawingContainer d = some cont)
    (htg : drawingTarget cv d = some tgt)
    (hl : _convert_drawing cv d = some lines) :
    (cont.find (qWP "extent") = some ext → ext.attr "cx" = some "914400" →
      widthOptionOf cont = "width=1.00in") ∧
    (cont.find (qWP "extent") = none → widthOptionOf cont = "width=0.7\\linewidth") ∧
    lines.get? 2 = some ("\\includegraphics[" ++ widthOptionOf cont ++ "]" ++ lb ++
      escape_latex (cv.texStem ++ "_media/" ++ baseNameOf tgt) ++ rb) := by
  refine ⟨?_, ?_, ?_⟩
  · intro he hcx
    simp only [widthOptionOf, he, hcx]
    decide
  · intro he
    simp [widthOptionOf, he]
  · simp only [_convert_drawing, hc, htg, Option.some.injEq] at hl
    rw [← hl]
    rcases captionOf cont with _ | cap <;> rfl

/-- The extent element of the witness drawing (exactly one inch). -/
def extent8 : Elem := mkE (qWP "extent") [("cx", "914400")] [] none

/-- The image reference of the witness drawing. -/
def blip8 : Elem := mkE (qA "blip") [(qR "embed", "rId7")] [] none

/-- A graphics wrapper element between the container and the blip. -/
def gElem8 : Elem := mkE "g" [] [blip8] none

/-- The inline container of the witness drawing. -/
def inline8 : Elem := mkE (qWP "inline") [] [extent8, gElem8] none

/-- The witness drawing element. -/
def d8 : Elem := mkE (qW "drawing") [] [inline8] none

/-- A converter state resolving the witness drawing's image. -/
def cv8 : Conv :=
  ⟨[("rId7", "http://x/image", "media/image1.png")], [], ["word/media/image1.png"], "doc"⟩

theorem drawingContainer8 : drawingContainer d8 = some inline8 := by rfl

theorem drawingTarget8 : drawingTarget cv8 d8 = some "media/image1.png" := by rfl

/-- The emitted figure block of the witness drawing. -/
def lines8 : List String := (_convert_drawing cv8 d8).getD []

theorem convert_drawing8 : _convert_drawing cv8 d8 = some lines8 := by
  simp only [lines8, _convert_drawing, drawingContainer8, drawingTarget8, Option.getD_some]

/-- Witness for C8: the concrete 914400-unit drawing yields the one-inch
width option. -/
theorem c8_media_width_witness : widthOptionOf inline8 = "width=1.00in" :=
  (c8_media_width cv8 d8 inline8 lines8 "media/image1.png" extent8
    drawingContainer8 drawingTarget8 convert_drawing8).1 rfl rfl

/-- Folding the per-row `or 1` fix-up and the final zero fix-up of the
column scan computes exactly "maximum row span-sum, minimum 1". -/
theorem maxColsFold :
    ∀ (l : List Int) (x y : Int), 0 ≤ x → 0 ≤ y → (x = y ∨ (x = 1 ∧ y = 0)) →
      (if l.foldl (fun a s => max a (if s = 0 then 1 else s)) x = 0 then 1
       else l.foldl (fun a s => max a (if s = 0 then 1 else s)) x) =
        max 1 (l.foldl (fun a s => max a s) y) := by
  intro l
  induction l with
  | nil =>
    intro x y hx hy hxy
    simp only [List.foldl_nil]
    rcases hxy with h | ⟨h1, h2⟩
    · subst h
      by_cases h0 : x = 0
      · subst h0; simp
      · rw [if_neg h0]
        omega
    · subst h1; subst h2
      norm_num
  | cons s rest ih =>
    intro x y hx hy hxy
    simp only [List.foldl_cons]
    by_cases hs : s = 0
    · subst hs
      simp only [if_pos rfl]
      apply ih
      · omega
      · omega
      · rcases hxy with h | ⟨h1, h2⟩
        · subst h; omega
        · subst h1; subst h2; omega
    · simp only [if_neg hs]
      apply ih
      · omega
      · omega
      · rcases hxy with h | ⟨h1, h2⟩
        · subst h; omega
        · subst h1; subst h2; omega

/-- A witness table cell with the given `gridSpan` value and text. -/
def tcSpan6 (n : String) (s : String) : Elem :=
  mkE (qW "tc") []
    [mkE (qW "tcPr") [] [mkE (qW "gridSpan") [(qW "val", n)] [] none] none, pRunT s] none

/-- A witness table cell holding one empty paragraph. -/
def tcEmpty6 : Elem := mkE (qW "tc") [] [mkE (qW "p") [] [] none] none

/-- The C6 witness table: row span-sums 2, 3, 1. -/
def tbl6 : Elem :=
  mkE (qW "tbl") []
    [mkE (qW "tr") [] [tcSpan6 "2" "a"] none,
     mkE (qW "tr") [] [tcText "b", tcSpan6 "2" "c"] none,
     mkE (qW "tr") [] [tcEmpty6] none] none

/-- The per-column width expression for three columns, spelled out. -/
def colW3 : String :=
  "p" ++ lb ++ "\\dimexpr\\linewidth/3-2\\tabcolsep\\relax" ++ rb

/-- The expected emission for `tbl6`: three columns; the span-sum-2 row
keeps only its own cell (no phantom empty cell); the empty cell renders the
placeholder glyph. -/
def expectedTable6 : List String :=
  ["\\begin" ++ lb ++ "longtable" ++ rb ++ lb ++
     "|" ++ colW3 ++ "|" ++ colW3 ++ "|" ++ colW3 ++ "|" ++ rb,
   "\\hline",
   "\\multicolumn" ++ lb ++ "2" ++ rb ++ lb ++ "|" ++ colW3 ++ "|" ++ rb ++ lb ++ "a" ++ rb ++
     " \\\\",
   "\\hline",
   "b & \\multicolumn" ++ lb ++ "2" ++ rb ++ lb ++ "|" ++ colW3 ++ "|" ++ rb ++ lb ++ "c" ++ rb ++
     " \\\\",
   "\\hline",
   "\\quad" ++ lb ++ rb ++ " \\\\",
   "\\hline",
   "\\end" ++ lb ++ "longtable" ++ rb]

/-- C6: the emitted column count equals the maximum over all rows of the
row's cell-span sum, with a minimum of 1; a span-1 cell emits its content
directly (placeholder glyph when empty); a span above 1 emits a
`\multicolumn` merge directive spanning that many per-column widths; and on
the concrete table with row span-sums [2, 3, 1] the column count is 3 and
the short rows keep only their own cells. -/
theorem c6_table_columns (cv : Conv) (tbl : Elem) (n : Int) (text : String) (span : Int)
    (hs : 1 < span) :
    maxCols cv tbl =
      max 1 ((rowsData cv tbl).foldl (fun a r => max a (rowRawSum r)) 0) ∧
    renderCell n (text, span) =
      "\\multicolumn" ++ lb ++ toString span ++ rb ++ lb ++ "|" ++ colWidth n ++ "|" ++ rb ++
        lb ++ (if text ≠ "" then text else "\\quad" ++ lb ++ rb) ++ rb ∧
    renderCell n (text, 1) = (if text ≠ "" then text else "\\quad" ++ lb ++ rb) ∧
    _convert_table cvEmpty tbl6 = expectedTable6 := by
  refine ⟨?_, ?_, ?_, by decide⟩
  · have h := maxColsFold ((rowsData cv tbl).map rowRawSum) 0 0 le_rfl le_rfl (Or.inl rfl)
    rw [List.foldl_map, List.foldl_map] at h
    simpa [maxCols, rowSpanTotal] using h
  · simp only [renderCell, if_pos hs]
  · simp [renderCell]

/-- Witness for C6 at span 2 and column count 3. -/
theorem c6_table_columns_witness :
    renderCell 3 ("a", 2) =
      "\\multicolumn" ++ lb ++ toString (2 : Int) ++ rb ++ lb ++ "|" ++ colWidth 3 ++ "|" ++ rb ++
        lb ++ (if ("a" : String) ≠ "" then "a" else "\\quad" ++ lb ++ rb) ++ rb :=
  (c6_table_columns cvEmpty tbl6 3 "a" 2 (by decide)).2.1

end DocxToLatex
